import Mathlib

/-!
Verification of the glogg asynchronous indexing engine against its
specification.  The development shallowly embeds the two headers
`src/src/data/logdata.h` and `src/logdataworkerthread.h`; the member-function
bodies live in `.cpp` files that are not part of the sources, so each such
body is modelled from the specification text (its doc comment says so and
names the missing function).  Byte contents are `List Nat` (a byte is a
`Nat`, the line terminator is byte 10), sizes and offsets are `Nat`.
-/

namespace Glogg

/-- The mutex-protected set of indexing data, from `logdataworkerthread.h`
lines 35-60: the ordered line-start offsets `linePosition_`, the longest
line length `maxLength_` and the number of indexed bytes `indexedSize_`
(the mutex itself is not modelled; operations are already atomic here). -/
structure IndexingData where
  linePosition_ : List Nat
  maxLength_ : Nat
  indexedSize_ : Nat
deriving DecidableEq, Repr

/-- Modelled from the spec: `IndexingData::getAll` (its body is in the
missing `logdataworkerthread.cpp`) — "Atomically get all the indexing
data", returning `(size, length, linePosition)` as in the header's
signature order. -/
def IndexingData.getAll (d : IndexingData) : Nat × Nat × List Nat :=
  (d.indexedSize_, d.maxLength_, d.linePosition_)

/-- Modelled from the spec: `IndexingData::setAll` (body in the missing
`logdataworkerthread.cpp`) — "Atomically set all the indexing data
(overwriting the existing)", i.e. the spec's `replace(size, max_len,
offsets)` which "atomically installs a brand-new snapshot". -/
def IndexingData.setAll (_d : IndexingData) (size length : Nat)
    (linePosition : List Nat) : IndexingData :=
  ⟨linePosition, length, size⟩

/-- Modelled from the spec: `IndexingData::addAll` (body in the missing
`logdataworkerthread.cpp`) — the spec's `extend(added_size, added_max_len,
added_offsets)`: "atomically appends `added_offsets` to the existing
sequence, sets `size += added_size`, `max_len = max(max_len,
added_max_len)`". -/
def IndexingData.addAll (d : IndexingData) (size length : Nat)
    (linePosition : List Nat) : IndexingData :=
  ⟨d.linePosition_ ++ linePosition, Nat.max d.maxLength_ length,
    d.indexedSize_ + size⟩

/-- The line-terminator byte looked for by the scanning loop. -/
def eolByte : Nat := 10

/-- Modelled from the spec: the shared chunked scanning loop of
`IndexOperation::start` (body in the missing `logdataworkerthread.cpp`),
spec section 4.2.  The loop walks the bytes once, maintaining the current
absolute position and the offset where the line currently being read
began, and accumulates three things; they are embedded as three
structural recursions over the same walk.  `scanOffsets bytes pos
lineStart` is the accumulated offset table: the line-start offset of
every line whose terminator was seen (the spec: "a final partial line
with no trailing terminator is *not* counted as a complete line (its
offset is not recorded)"). -/
def scanOffsets : List Nat → Nat → Nat → List Nat
  | [], _, _ => []
  | b :: rest, pos, lineStart =>
    if b = eolByte then lineStart :: scanOffsets rest (pos + 1) (pos + 1)
    else scanOffsets rest (pos + 1) lineStart

/-- Modelled from the spec: the longest-complete-line tracking of the
same scanning loop ("track the longest line seen", spec section 4.2),
terminator excluded. -/
def scanMaxLen : List Nat → Nat → Nat → Nat
  | [], _, _ => 0
  | b :: rest, pos, lineStart =>
    if b = eolByte then
      Nat.max (pos - lineStart) (scanMaxLen rest (pos + 1) (pos + 1))
    else scanMaxLen rest (pos + 1) lineStart

/-- Modelled from the spec: the final line-start cursor of the same
scanning loop — the offset where the unfinished last line begins, which
is the byte count "covered by the index so far".  The spec requires the
uncounted final line to "be picked up by a subsequent PartialScan ...
once more data and a terminator arrive", and that scan is anchored at
`indexed_size`, so `indexed_size` stops at this frontier. -/
def scanFrontier : List Nat → Nat → Nat → Nat
  | [], _, lineStart => lineStart
  | b :: rest, pos, lineStart =>
    if b = eolByte then scanFrontier rest (pos + 1) (pos + 1)
    else scanFrontier rest (pos + 1) lineStart

/-- Modelled from the spec: `FullIndexOperation::start` (body in the
missing `logdataworkerthread.cpp`) — "FullScan always starts from byte 0
and produces a replace-shaped result": scan the whole content and install
it with `setAll`. -/
def fullIndexRun (content : List Nat) (d : IndexingData) : IndexingData :=
  d.setAll (scanFrontier content 0 0) (scanMaxLen content 0 0)
    (scanOffsets content 0 0)

/-- Modelled from the spec: `PartialIndexOperation::start` (body in the
missing `logdataworkerthread.cpp`) — "PartialScan starts from
`start_offset` and produces an extend-shaped result"; the start offset is
the snapshot's `indexed_size` and the fragment is applied with `addAll`. -/
def addIndexRun (content : List Nat) (d : IndexingData) : IndexingData :=
  let start := d.indexedSize_
  let tail := content.drop start
  d.addAll (scanFrontier tail start start - start) (scanMaxLen tail start start)
    (scanOffsets tail start start)

/-- The empty snapshot, from the `IndexingData()` constructor in
`logdataworkerthread.h` line 38. -/
def IndexingData.empty : IndexingData := ⟨[], 0, 0⟩

/-- Thrown when trying to attach an already attached LogData
(`logdata.h` line 42). -/
structure CantReattachErr where
deriving DecidableEq, Repr

/-- `LogData::MonitoredFileStatus` from `logdata.h` line 55. -/
inductive MonitoredFileStatus where
  | Unchanged
  | DataAdded
  | Truncated
deriving DecidableEq, Repr

/-- Modelled from the spec: the completion status carried by
`loadingFinished` (`loadingstatus.h` is not among the sources) — spec
sections 4.3 and 7: `Successful` applies the fragment, `Interrupted` is a
cooperative stop whose partial fragment is still applied, `Failed` covers
the failure taxonomy (`FileOpenError`, `IoReadError`) surfaced "as a
failed completion notification with an empty/unchanged snapshot". -/
inductive LoadingStatus where
  | Successful
  | Interrupted
  | Failed
deriving DecidableEq, Repr

/-- The `LogData::LogDataOperation` hierarchy of `logdata.h` lines
97-152, embedded as a tagged union as the spec's design note 9 suggests:
`AttachOperation` carries the file name ("change name + full index"),
`FullIndexOperation` reindexes the current file, `PartialIndexOperation`
indexes "part of the current file (from fileSize)". -/
inductive LogDataOperation where
  | AttachOperation (fileName : String)
  | FullIndexOperation
  | PartialIndexOperation (filesize : Nat)
deriving DecidableEq, Repr

/-- `LogDataOperation::isFull` as the virtual overrides in `logdata.h`
resolve it: `true` for `AttachOperation` (line 120), `false` for
`FullIndexOperation` (line 132) and for `PartialIndexOperation`
(line 145). -/
def LogDataOperation.isFull : LogDataOperation → Bool
  | .AttachOperation _ => true
  | .FullIndexOperation => false
  | .PartialIndexOperation _ => false

/-- Modelled from the spec: which operations are full rescans for the
coalescing policy of spec section 4.4 (the policy's body,
`LogData::enqueueOperation` in `logdata.cpp`, is missing).  Attaching and
reindexing both submit a FullScan; only `PartialIndexOperation` is a
partial scan. -/
def LogDataOperation.isFullRescan : LogDataOperation → Bool
  | .AttachOperation _ => true
  | .FullIndexOperation => true
  | .PartialIndexOperation _ => false

/-- A file known to the file system: its byte content, its last
modification date and an identity (the spec's "modification
timestamp/inode-equivalent").  Dates and identities are opaque `Nat`s. -/
structure FileInfo where
  content : List Nat
  mtime : Nat
  fid : Nat
deriving DecidableEq, Repr

/-- The file system seen by the coordinator: a partial map from file
names to files; `none` is a file "not on disk". -/
def FileSys : Type := String → Option FileInfo

/-- The `LogData` coordinator state, from the private fields of
`logdata.h` lines 154-187 (Qt plumbing, mutexes and the worker-thread
handle are not modelled; the two operation slots and the published index
copy are). -/
structure LogData where
  attached_file_ : Option String
  linePosition_ : List Nat
  fileSize_ : Nat
  nbLines_ : Nat
  maxLength_ : Nat
  lastModifiedDate_ : Option Nat
  fileId_ : Nat
  currentOperation_ : Option LogDataOperation
  nextOperation_ : Option LogDataOperation
  fileChangedOnDisk_ : MonitoredFileStatus
  interruptRequested_ : Bool
deriving DecidableEq, Repr

/-- Modelled from the spec: the `LogData()` constructor ("Creates an
empty LogData", `logdata.h` line 50; body in the missing
`logdata.cpp`). -/
def LogData.init : LogData :=
  ⟨none, [], 0, 0, 0, none, 0, none, none, .Unchanged, false⟩

/-- The index snapshot the coordinator currently serves to its callers
(`AbstractLogData` accessors read `linePosition_`, `fileSize_` and
`maxLength_`). -/
def LogData.currentIndex (st : LogData) : IndexingData :=
  ⟨st.linePosition_, st.maxLength_, st.fileSize_⟩

/-- `LogData::getFileSize` ("Returns the size if the file in bytes",
`logdata.h` line 70): the published `fileSize_`. -/
def LogData.getFileSize (st : LogData) : Nat := st.fileSize_

/-- `LogData::doGetNbLine` (`logdata.h` line 162): the published number
of indexed lines. -/
def LogData.doGetNbLine (st : LogData) : Nat := st.nbLines_

/-- `LogData::getLastModifiedDate` ("Returns the last modification date
for the file. Null if the file is not on disk.", `logdata.h` lines
71-73): the stored `lastModifiedDate_`, `none` playing the null
`QDateTime`. -/
def LogData.getLastModifiedDate (st : LogData) : Option Nat :=
  st.lastModifiedDate_

/-- Modelled from the spec: `LogData::enqueueOperation` (body in the
missing `logdata.cpp`) — spec sections 3 and 4.4.  If nothing is running
the operation starts at once.  Otherwise it goes to the single *next*
slot under the coalescing policy: "any request arriving while a full
rescan is already queued (not yet started) is dropped"; otherwise "a
newly submitted operation supersedes whatever sits in the next slot"
("a full-scan request arriving while a partial scan is queued replaces
it (full always wins)"); it "never supersedes a currently running
operation". -/
def LogData.enqueueOperation (st : LogData) (newOperation : LogDataOperation) :
    LogData :=
  match st.currentOperation_ with
  | none => { st with currentOperation_ := some newOperation }
  | some _ =>
    match st.nextOperation_ with
    | none => { st with nextOperation_ := some newOperation }
    | some queued =>
      if queued.isFullRescan then st
      else { st with nextOperation_ := some newOperation }

/-- Modelled from the spec: `LogData::interruptLoading` ("Interrupt the
loading... Does nothing if no loading in progress", `logdata.h` lines
63-65; body in the missing `logdata.cpp`) — forwards to the worker's
interrupt flag; the running operation is only asked to stop, the
operation slots are untouched. -/
def LogData.interruptLoading (st : LogData) : LogData :=
  { st with interruptRequested_ := true }

/-- Modelled from the spec: the classification step of
`LogData::fileChangedOnDisk` (body in the missing `logdata.cpp`) — spec
section 3: "Truncation (new size < old size, or file identity changed)
...; growth (new size > old size, same identity) ...", anything else is
`Unchanged`. -/
def classifyFileChange (oldSize oldId newSize newId : Nat) :
    MonitoredFileStatus :=
  if newSize < oldSize ∨ newId ≠ oldId then .Truncated
  else if oldSize < newSize then .DataAdded
  else .Unchanged

/-- Modelled from the spec: the decision of `LogData::fileChangedOnDisk`
(body in the missing `logdata.cpp`) — spec section 4.4: "`Truncated`
(shrink or identity change) triggers `reload()`-equivalent full rescan.
`DataAdded` submits a `PartialScan` anchored at the currently known
`indexed_size`. `Unchanged` is a no-op."  Returns the classification and
the operation to enqueue, if any. -/
def LogData.fileChangeAction (st : LogData) (newSize newId : Nat) :
    MonitoredFileStatus × Option LogDataOperation :=
  match classifyFileChange st.fileSize_ st.fileId_ newSize newId with
  | .Truncated => (.Truncated, some .FullIndexOperation)
  | .DataAdded => (.DataAdded, some (.PartialIndexOperation st.fileSize_))
  | .Unchanged => (.Unchanged, none)

/-- Modelled from the spec: `LogData::fileChangedOnDisk` (slot declared
at `logdata.h` line 89, body in the missing `logdata.cpp`) — record the
classification and enqueue the decided operation. -/
def LogData.fileChangedOnDisk (st : LogData) (newSize newId : Nat) :
    LogData :=
  match st.fileChangeAction newSize newId with
  | (status, some op) =>
    { st with fileChangedOnDisk_ := status }.enqueueOperation op
  | (status, none) => { st with fileChangedOnDisk_ := status }

/-- Modelled from the spec: `LogData::attachFile` (declared `logdata.h`
lines 57-62, body in the missing `logdata.cpp`) — "Reattaching is
forbidden and will throw"; "Attaching to a non existant file works and
the file is reported to be empty."  The asynchronous FullScan completion
is modelled as immediate: the attach installs the full-scan snapshot of
the file's content (empty when the file is not on disk) and records the
file's modification date (null when not on disk). -/
def LogData.attachFile (st : LogData) (fileName : String) (fs : FileSys) :
    Except CantReattachErr LogData :=
  match st.attached_file_ with
  | some _ => .error ⟨⟩
  | none =>
    let content := match fs fileName with
      | some fi => fi.content
      | none => []
    let d := fullIndexRun content IndexingData.empty
    .ok { st with
      attached_file_ := some fileName
      linePosition_ := d.linePosition_
      fileSize_ := d.indexedSize_
      nbLines_ := d.linePosition_.length
      maxLength_ := d.maxLength_
      lastModifiedDate_ := (fs fileName).map FileInfo.mtime
      fileId_ := match fs fileName with
        | some fi => fi.fid
        | none => 0 }

/-- The state the coordinator is left in after an `attachFile` call:
the new state on success, the unchanged prior state when the call
threw. -/
def LogData.afterAttach (st : LogData) (fileName : String) (fs : FileSys) :
    LogData :=
  match st.attachFile fileName fs with
  | .ok st2 => st2
  | .error _ => st

/-- Modelled from the spec: `LogData::indexingFinished` (slot declared at
`logdata.h` line 91, body in the missing `logdata.cpp`) — on a
`Successful` or `Interrupted` completion the worker has already applied
its fragment, so the coordinator copies the worker snapshot `w` into its
authoritative fields (spec 4.3: "an interrupted operation's partial
fragment is still applied ... partial progress is never wasted"); on a
`Failed` completion the snapshot is left unchanged (spec 7: "on failure,
the coordinator keeps serving the last good snapshot").  In every case
the finished operation leaves the *current* slot and the queued *next*
operation, if any, is promoted. -/
def LogData.indexingFinished (st : LogData) (w : IndexingData) :
    LoadingStatus → LogData
  | .Failed =>
    { st with currentOperation_ := st.nextOperation_, nextOperation_ := none }
  | _ =>
    { st with
      linePosition_ := w.linePosition_
      fileSize_ := w.indexedSize_
      nbLines_ := w.linePosition_.length
      maxLength_ := w.maxLength_
      currentOperation_ := st.nextOperation_
      nextOperation_ := none }

/-- The spec's snapshot invariant (sections 3 and 8): "`line_offsets` is
sorted ascending with no duplicates" (strictly increasing) and
"`indexed_size >= line_offsets.last().unwrap_or(0)`". -/
def IndexingData.wellFormed (d : IndexingData) : Prop :=
  d.linePosition_.Pairwise (· < ·) ∧
    d.linePosition_.getLast?.getD 0 ≤ d.indexedSize_

/-- A strengthening of `IndexingData.wellFormed` that is inductive: every
recorded offset lies strictly below the indexed size (an offset is the
start of a complete line, whose terminator the index also covers). -/
def IndexingData.strongWellFormed (d : IndexingData) : Prop :=
  d.linePosition_.Pairwise (· < ·) ∧
    ∀ o ∈ d.linePosition_, o < d.indexedSize_

/-- The snapshots that can occupy the worker's `IndexingData` slot: the
empty initial snapshot, a full-scan replace (`setAll`) of any content, or
a partial-scan extension (`addAll`) of a reachable snapshot by any
content. -/
inductive ReachableIndex : IndexingData → Prop where
  | empty : ReachableIndex IndexingData.empty
  | full (c : List Nat) (d : IndexingData) (h : ReachableIndex d) :
      ReachableIndex (fullIndexRun c d)
  | extend (c : List Nat) (d : IndexingData) (h : ReachableIndex d) :
      ReachableIndex (addIndexRun c d)

/-! ### Lemmas about the scanning loop -/

/-- The frontier never falls behind the incoming line start. -/
theorem scanFrontier_ge (xs : List Nat) :
    ∀ pos ls : Nat, ls ≤ pos → ls ≤ scanFrontier xs pos ls := by
  induction xs with
  | nil => intro pos ls _; simp [scanFrontier]
  | cons b rest ih =>
    intro pos ls h
    simp only [scanFrontier]
    by_cases hb : b = eolByte
    · rw [if_pos hb]
      exact Nat.le_trans (Nat.le_trans h (Nat.le_succ _))
        (ih (pos + 1) (pos + 1) (Nat.le_refl _))
    · rw [if_neg hb]
      exact ih (pos + 1) ls (Nat.le_trans h (Nat.le_succ _))

/-- The frontier never passes the end of the scanned range. -/
theorem scanFrontier_le (xs : List Nat) :
    ∀ pos ls : Nat, ls ≤ pos → scanFrontier xs pos ls ≤ pos + xs.length := by
  induction xs with
  | nil => intro pos ls h; simpa [scanFrontier] using h
  | cons b rest ih =>
    intro pos ls h
    simp only [scanFrontier, List.length_cons]
    by_cases hb : b = eolByte
    · rw [if_pos hb]
      have := ih (pos + 1) (pos + 1) (Nat.le_refl _)
      omega
    · rw [if_neg hb]
      have := ih (pos + 1) ls (Nat.le_trans h (Nat.le_succ _))
      omega

/-- If the scanned bytes contain a terminator, the frontier moves past
the scan's starting position. -/
theorem scanFrontier_lt_of_mem (xs : List Nat) :
    ∀ pos ls : Nat, eolByte ∈ xs → pos < scanFrontier xs pos ls := by
  induction xs with
  | nil => intro pos ls h; cases h
  | cons b rest ih =>
    intro pos ls hmem
    simp only [scanFrontier]
    by_cases hb : b = eolByte
    · rw [if_pos hb]
      have := scanFrontier_ge rest (pos + 1) (pos + 1) (Nat.le_refl _)
      omega
    · rw [if_neg hb]
      have hmem' : eolByte ∈ rest := by
        cases hmem with
        | head => exact absurd rfl hb
        | tail _ h => exact h
      have := ih (pos + 1) ls hmem'
      omega

/-- The bytes beyond the frontier contain no terminator: the unfinished
final line really is unfinished. -/
theorem scanFrontier_drop_no_eol (xs : List Nat) :
    ∀ pos ls : Nat, ls ≤ pos →
      eolByte ∉ xs.drop (scanFrontier xs pos ls - pos) := by
  induction xs with
  | nil => intro pos ls _ h; simp at h
  | cons b rest ih =>
    intro pos ls h
    simp only [scanFrontier]
    by_cases hb : b = eolByte
    · rw [if_pos hb]
      have hge := scanFrontier_ge rest (pos + 1) (pos + 1) (Nat.le_refl _)
      have harith : scanFrontier rest (pos + 1) (pos + 1) - pos =
          (scanFrontier rest (pos + 1) (pos + 1) - (pos + 1)) + 1 := by omega
      rw [harith, List.drop_succ_cons]
      exact ih (pos + 1) (pos + 1) (Nat.le_refl _)
    · rw [if_neg hb]
      by_cases hf : pos + 1 ≤ scanFrontier rest (pos + 1) ls
      · have harith : scanFrontier rest (pos + 1) ls - pos =
            (scanFrontier rest (pos + 1) ls - (pos + 1)) + 1 := by omega
        rw [harith, List.drop_succ_cons]
        exact ih (pos + 1) ls (Nat.le_trans h (Nat.le_succ _))
      · have hzero : scanFrontier rest (pos + 1) ls - pos = 0 := by omega
        rw [hzero, List.drop_zero]
        intro hmem
        cases hmem with
        | head => exact hb rfl
        | tail _ hmem' =>
          exact absurd (scanFrontier_lt_of_mem rest (pos + 1) ls hmem')
            (by omega)

/-- Scanning terminator-free bytes records nothing and leaves the line
start where it was. -/
theorem scan_no_eol (xs : List Nat) :
    ∀ pos ls : Nat, eolByte ∉ xs →
      scanOffsets xs pos ls = [] ∧ scanMaxLen xs pos ls = 0 ∧
        scanFrontier xs pos ls = ls := by
  induction xs with
  | nil => intro pos ls _; exact ⟨rfl, rfl, rfl⟩
  | cons b rest ih =>
    intro pos ls hmem
    have hb : ¬ b = eolByte := by
      intro hbe; subst hbe; exact hmem (List.mem_cons_self _ _)
    have hrest : eolByte ∉ rest := fun hr => hmem (List.mem_cons_of_mem b hr)
    simp only [scanOffsets, scanMaxLen, scanFrontier, if_neg hb]
    exact ih (pos + 1) ls hrest

/-- The frontier of a concatenation is the second part's frontier,
resumed at the first part's frontier. -/
theorem scanFrontier_append (xs : List Nat) :
    ∀ (ys : List Nat) (pos ls : Nat),
      scanFrontier (xs ++ ys) pos ls =
        scanFrontier ys (pos + xs.length) (scanFrontier xs pos ls) := by
  induction xs with
  | nil => intro ys pos ls; simp [scanFrontier]
  | cons b rest ih =>
    intro ys pos ls
    simp only [List.cons_append, scanFrontier, List.length_cons]
    have harith : pos + (rest.length + 1) = pos + 1 + rest.length := by omega
    by_cases hb : b = eolByte
    · simp only [if_pos hb, List.append_eq, ih ys (pos + 1) (pos + 1), harith]
    · simp only [if_neg hb, List.append_eq, ih ys (pos + 1) ls, harith]

/-- The offsets of a concatenation are the first part's offsets followed
by those of the second part's resumed scan. -/
theorem scanOffsets_append (xs : List Nat) :
    ∀ (ys : List Nat) (pos ls : Nat),
      scanOffsets (xs ++ ys) pos ls =
        scanOffsets xs pos ls ++
          scanOffsets ys (pos + xs.length) (scanFrontier xs pos ls) := by
  induction xs with
  | nil => intro ys pos ls; simp [scanOffsets, scanFrontier]
  | cons b rest ih =>
    intro ys pos ls
    simp only [List.cons_append, scanOffsets, scanFrontier, List.length_cons]
    have harith : pos + (rest.length + 1) = pos + 1 + rest.length := by omega
    by_cases hb : b = eolByte
    · simp only [if_pos hb, List.append_eq, ih ys (pos + 1) (pos + 1), harith,
        List.cons_append]
    · simp only [if_neg hb, List.append_eq, ih ys (pos + 1) ls, harith]

/-- The longest line of a concatenation is the longer of the first
part's and the resumed second part's. -/
theorem scanMaxLen_append (xs : List Nat) :
    ∀ (ys : List Nat) (pos ls : Nat),
      scanMaxLen (xs ++ ys) pos ls =
        Nat.max (scanMaxLen xs pos ls)
          (scanMaxLen ys (pos + xs.length) (scanFrontier xs pos ls)) := by
  induction xs with
  | nil => intro ys pos ls; simp [scanMaxLen, scanFrontier]
  | cons b rest ih =>
    intro ys pos ls
    simp only [List.cons_append, scanMaxLen, scanFrontier, List.length_cons]
    have harith : pos + (rest.length + 1) = pos + 1 + rest.length := by omega
    by_cases hb : b = eolByte
    · simp only [if_pos hb, List.append_eq, ih ys (pos + 1) (pos + 1), harith,
        Nat.max_assoc]
    · simp only [if_neg hb, List.append_eq, ih ys (pos + 1) ls, harith]

/-- Every recorded offset lies between the incoming line start and the
frontier. -/
theorem scanOffsets_bounds (xs : List Nat) :
    ∀ pos ls : Nat, ls ≤ pos → ∀ o ∈ scanOffsets xs pos ls,
      ls ≤ o ∧ o < scanFrontier xs pos ls := by
  induction xs with
  | nil => intro pos ls _ o ho; simp [scanOffsets] at ho
  | cons b rest ih =>
    intro pos ls h o ho
    simp only [scanOffsets] at ho
    simp only [scanFrontier]
    by_cases hb : b = eolByte
    · simp only [if_pos hb] at ho ⊢
      have hge := scanFrontier_ge rest (pos + 1) (pos + 1) (Nat.le_refl _)
      cases ho with
      | head => exact ⟨Nat.le_refl _, by omega⟩
      | tail _ ho' =>
        have := ih (pos + 1) (pos + 1) (Nat.le_refl _) o ho'
        exact ⟨by omega, this.2⟩
    · simp only [if_neg hb] at ho ⊢
      exact ih (pos + 1) ls (Nat.le_trans h (Nat.le_succ _)) o ho

/-- The recorded offsets are strictly increasing. -/
theorem scanOffsets_pairwise (xs : List Nat) :
    ∀ pos ls : Nat, ls ≤ pos → (scanOffsets xs pos ls).Pairwise (· < ·) := by
  induction xs with
  | nil => intro pos ls _; simp [scanOffsets]
  | cons b rest ih =>
    intro pos ls h
    simp only [scanOffsets]
    by_cases hb : b = eolByte
    · simp only [if_pos hb]
      refine List.Pairwise.cons ?_ (ih (pos + 1) (pos + 1) (Nat.le_refl _))
      intro o ho
      have hb' := scanOffsets_bounds rest (pos + 1) (pos + 1)
        (Nat.le_refl _) o ho
      omega
    · simp only [if_neg hb]
      exact ih (pos + 1) ls (Nat.le_trans h (Nat.le_succ _))


/-! ### Invariant preservation -/

/-- A full scan always produces a strongly well-formed snapshot. -/
theorem strongWellFormed_full (c : List Nat) (d : IndexingData) :
    (fullIndexRun c d).strongWellFormed := by
  constructor
  · exact scanOffsets_pairwise c 0 0 (Nat.le_refl 0)
  · intro o ho
    exact (scanOffsets_bounds c 0 0 (Nat.le_refl 0) o ho).2

/-- A partial scan anchored at the snapshot it extends preserves strong
well-formedness, whatever the file now contains. -/
theorem strongWellFormed_extend (c : List Nat) (d : IndexingData)
    (hd : d.strongWellFormed) : (addIndexRun c d).strongWellFormed := by
  obtain ⟨hp, hlt⟩ := hd
  have h0 : d.indexedSize_ ≤ d.indexedSize_ := Nat.le_refl _
  have hbnds := scanOffsets_bounds (c.drop d.indexedSize_) d.indexedSize_
    d.indexedSize_ h0
  have hge := scanFrontier_ge (c.drop d.indexedSize_) d.indexedSize_
    d.indexedSize_ h0
  constructor
  · show (d.linePosition_ ++
      scanOffsets (c.drop d.indexedSize_) d.indexedSize_
        d.indexedSize_).Pairwise (· < ·)
    rw [List.pairwise_append]
    refine ⟨hp, scanOffsets_pairwise _ _ _ h0, ?_⟩
    intro a ha b hbm
    have h1 := hlt a ha
    have h2 := (hbnds b hbm).1
    omega
  · intro o ho
    simp only [addIndexRun, IndexingData.addAll, List.mem_append] at ho
    cases ho with
    | inl hmem =>
      have := hlt o hmem
      show o < d.indexedSize_ +
        (scanFrontier (c.drop d.indexedSize_) d.indexedSize_ d.indexedSize_ -
          d.indexedSize_)
      omega
    | inr hmem =>
      have := (hbnds o hmem).2
      show o < d.indexedSize_ +
        (scanFrontier (c.drop d.indexedSize_) d.indexedSize_ d.indexedSize_ -
          d.indexedSize_)
      omega

/-- Every reachable snapshot is strongly well-formed. -/
theorem reachable_strongWellFormed (d : IndexingData)
    (h : ReachableIndex d) : d.strongWellFormed := by
  induction h with
  | empty => exact ⟨List.Pairwise.nil, by intro o ho; cases ho⟩
  | full c d _ _ => exact strongWellFormed_full c d
  | extend c d _ ih => exact strongWellFormed_extend c d ih


/-! ### Claim theorems -/

/-- C3: for a file that only grows between two `on_file_changed` events —
the final content is the prior content `c1` with bytes `c2` appended —
the snapshot after the second event's PartialScan (`addAll` applied by
`addIndexRun` to the prior snapshot, anchored at its `indexed_size`)
equals the snapshot a single FullScan over the final content produces. -/
theorem appendOnlyScanEquivalence (c1 c2 : List Nat) (d : IndexingData) :
    addIndexRun (c1 ++ c2) (fullIndexRun c1 d) = fullIndexRun (c1 ++ c2) d := by
  have hle : scanFrontier c1 0 0 ≤ c1.length := by
    simpa using scanFrontier_le c1 0 0 (Nat.le_refl 0)
  have hnoeol : eolByte ∉ c1.drop (scanFrontier c1 0 0) := by
    simpa using scanFrontier_drop_no_eol c1 0 0 (Nat.le_refl 0)
  have hdrop : (c1 ++ c2).drop (scanFrontier c1 0 0) =
      c1.drop (scanFrontier c1 0 0) ++ c2 :=
    List.drop_append_of_le_length hle
  have hvoid := scan_no_eol (c1.drop (scanFrontier c1 0 0))
    (scanFrontier c1 0 0) (scanFrontier c1 0 0) hnoeol
  have hlen : scanFrontier c1 0 0 + (c1.drop (scanFrontier c1 0 0)).length =
      c1.length := by
    rw [List.length_drop]
    omega
  have hge : scanFrontier c1 0 0 ≤
      scanFrontier c2 c1.length (scanFrontier c1 0 0) :=
    scanFrontier_ge c2 c1.length (scanFrontier c1 0 0) hle
  simp only [addIndexRun, fullIndexRun, IndexingData.addAll,
    IndexingData.setAll, hdrop, scanOffsets_append, scanMaxLen_append,
    scanFrontier_append, hvoid.1, hvoid.2.1, hvoid.2.2, hlen,
    List.nil_append, Nat.zero_max, Nat.zero_add, IndexingData.mk.injEq]
  refine ⟨trivial, trivial, ?_⟩
  omega

/-- C4: every snapshot reachable in the worker's `IndexingData` slot —
the empty initial one, or the result of any interleaving of `setAll`
(FullScan replace) and `addAll` (PartialScan extend) — has a strictly
increasing offset sequence and an indexed size at least its last offset
(0 for the empty sequence). -/
theorem reachableIndexInvariant (d : IndexingData) (h : ReachableIndex d) :
    d.wellFormed := by
  obtain ⟨hp, hlt⟩ := reachable_strongWellFormed d h
  refine ⟨hp, ?_⟩
  cases hl : d.linePosition_.getLast? with
  | none => simp [hl]
  | some a =>
    obtain ⟨hne, rfl⟩ := List.mem_getLast?_eq_getLast (l := d.linePosition_)
      (x := a) (by simp [hl, Option.mem_def])
    rw [Option.getD_some]
    exact Nat.le_of_lt (hlt _ (List.getLast_mem hne))

/-- Witness for C4: the invariant at a concrete reachable snapshot, a
full scan of "a\n" extended by a partial scan after "bb\n" was
appended. -/
theorem reachableIndexInvariant_witness :
    (addIndexRun [97, 10, 98, 98, 10]
        (fullIndexRun [97, 10] IndexingData.empty)).wellFormed :=
  reachableIndexInvariant _
    (ReachableIndex.extend _ _ (ReachableIndex.full _ _ ReachableIndex.empty))

/-- C6: `addAll` (the spec's `extend`) appends the added offsets to the
prior sequence, adds the added size to the prior size, and takes the
maximum of the prior and added line lengths. -/
theorem addAllExtendSpec (d : IndexingData) (addedSize addedMaxLen : Nat)
    (addedOffsets : List Nat) :
    (d.addAll addedSize addedMaxLen addedOffsets).linePosition_ =
        d.linePosition_ ++ addedOffsets ∧
      (d.addAll addedSize addedMaxLen addedOffsets).indexedSize_ =
        d.indexedSize_ + addedSize ∧
      (d.addAll addedSize addedMaxLen addedOffsets).maxLength_ =
        Nat.max d.maxLength_ addedMaxLen :=
  ⟨rfl, rfl, rfl⟩

/-- C2: a `Failed` completion leaves the snapshot the coordinator serves
exactly as it was — the last good one, possibly the empty one — and an
interrupted PartialScan can only append to the offsets already served
(its partial fragment extends, never discards, the prior data), so no
failure leaves callers without data. -/
theorem failedIndexingKeepsLastGoodSnapshot (st : LogData) (w : IndexingData) :
    (st.indexingFinished w .Failed).currentIndex = st.currentIndex ∧
      ∀ (d : IndexingData) (c : List Nat),
        ∃ t, (addIndexRun c d).linePosition_ = d.linePosition_ ++ t := by
  exact ⟨rfl, fun d c => ⟨_, rfl⟩⟩


/-- C1: while an operation is running and a partial scan sits in the
next slot, an arriving full-index request replaces it; while a full
rescan sits in the next slot (queued, not yet started), any arriving
request is dropped; either way, once a full-index request has arrived the
next slot holds a full rescan — full always wins the next slot. -/
theorem fullRescanWinsNextSlot (st : LogData) (newOp q : LogDataOperation)
    (hc : st.currentOperation_.isSome = true)
    (hq : st.nextOperation_ = some q) :
    (q.isFullRescan = false → newOp.isFullRescan = true →
        (st.enqueueOperation newOp).nextOperation_ = some newOp) ∧
      (q.isFullRescan = true → st.enqueueOperation newOp = st) ∧
      (newOp.isFullRescan = true →
        ∃ r, (st.enqueueOperation newOp).nextOperation_ = some r ∧
          r.isFullRescan = true) := by
  obtain ⟨c, hc'⟩ := Option.isSome_iff_exists.mp hc
  have hunfold : st.enqueueOperation newOp =
      if q.isFullRescan then st
      else { st with nextOperation_ := some newOp } := by
    simp only [LogData.enqueueOperation, hc', hq]
  refine ⟨?_, ?_, ?_⟩
  · intro hqf _
    rw [hunfold, if_neg (by simp [hqf])]
  · intro hqt
    rw [hunfold, if_pos hqt]
  · intro hnf
    by_cases hqt : q.isFullRescan = true
    · exact ⟨q, by rw [hunfold, if_pos hqt]; exact hq, hqt⟩
    · exact ⟨newOp, by rw [hunfold, if_neg hqt], hnf⟩

/-- Witness for C1: a concrete coordinator with an attach running and a
partial scan queued, receiving a full-index request. -/
theorem fullRescanWinsNextSlot_witness :
    ((LogDataOperation.PartialIndexOperation 4).isFullRescan = false →
        LogDataOperation.FullIndexOperation.isFullRescan = true →
        (({ LogData.init with
              currentOperation_ := some (.AttachOperation "log"),
              nextOperation_ :=
                some (.PartialIndexOperation 4) } : LogData).enqueueOperation
            .FullIndexOperation).nextOperation_ =
          some .FullIndexOperation) ∧
      ((LogDataOperation.PartialIndexOperation 4).isFullRescan = true →
        ({ LogData.init with
            currentOperation_ := some (.AttachOperation "log"),
            nextOperation_ :=
              some (.PartialIndexOperation 4) } : LogData).enqueueOperation
            .FullIndexOperation =
          { LogData.init with
            currentOperation_ := some (.AttachOperation "log"),
            nextOperation_ := some (.PartialIndexOperation 4) }) ∧
      (LogDataOperation.FullIndexOperation.isFullRescan = true →
        ∃ r,
          (({ LogData.init with
                currentOperation_ := some (.AttachOperation "log"),
                nextOperation_ :=
                  some (.PartialIndexOperation 4) } : LogData).enqueueOperation
              .FullIndexOperation).nextOperation_ = some r ∧
            r.isFullRescan = true) :=
  fullRescanWinsNextSlot
    { LogData.init with
      currentOperation_ := some (.AttachOperation "log"),
      nextOperation_ := some (.PartialIndexOperation 4) }
    .FullIndexOperation (.PartialIndexOperation 4) rfl rfl

/-- C7: with an operation running, there is one current slot and one
next slot (both `Option`-valued); a submission only ever rewrites the
next slot and never displaces the running operation, and an interrupt
request (`interruptLoading`) touches neither slot. -/
theorem pendingSlotSupersession (st : LogData) (op : LogDataOperation)
    (hc : st.currentOperation_.isSome = true) :
    (st.enqueueOperation op).currentOperation_ = st.currentOperation_ ∧
      ((st.enqueueOperation op).nextOperation_ = st.nextOperation_ ∨
        (st.enqueueOperation op).nextOperation_ = some op) ∧
      st.interruptLoading.currentOperation_ = st.currentOperation_ ∧
      st.interruptLoading.nextOperation_ = st.nextOperation_ := by
  obtain ⟨c, hc'⟩ := Option.isSome_iff_exists.mp hc
  have h1 : st.nextOperation_ = none →
      st.enqueueOperation op = { st with nextOperation_ := some op } := by
    intro hq
    simp only [LogData.enqueueOperation, hc', hq]
  have h2 : ∀ queued, st.nextOperation_ = some queued →
      st.enqueueOperation op =
        if queued.isFullRescan then st
        else { st with nextOperation_ := some op } := by
    intro queued hq
    simp only [LogData.enqueueOperation, hc', hq]
  cases hq : st.nextOperation_ with
  | none =>
    rw [h1 hq]
    exact ⟨rfl, Or.inr rfl, rfl, hq⟩
  | some queued =>
    rw [h2 queued hq]
    by_cases hf : queued.isFullRescan = true
    · rw [if_pos hf]
      exact ⟨rfl, Or.inl hq, rfl, hq⟩
    · rw [if_neg hf]
      exact ⟨rfl, Or.inr rfl, rfl, hq⟩

/-- Witness for C7: a concrete coordinator with a full index running and
an empty next slot, receiving a partial-scan request. -/
theorem pendingSlotSupersession_witness :
    (({ LogData.init with
          currentOperation_ := some .FullIndexOperation } : LogData
          ).enqueueOperation (.PartialIndexOperation 7)).currentOperation_ =
        ({ LogData.init with
            currentOperation_ := some .FullIndexOperation } : LogData
            ).currentOperation_ ∧
      ((({ LogData.init with
            currentOperation_ := some .FullIndexOperation } : LogData
            ).enqueueOperation (.PartialIndexOperation 7)).nextOperation_ =
          ({ LogData.init with
              currentOperation_ := some .FullIndexOperation } : LogData
              ).nextOperation_ ∨
        (({ LogData.init with
            currentOperation_ := some .FullIndexOperation } : LogData
            ).enqueueOperation (.PartialIndexOperation 7)).nextOperation_ =
          some (.PartialIndexOperation 7)) ∧
      ({ LogData.init with
          currentOperation_ := some .FullIndexOperation } : LogData
          ).interruptLoading.currentOperation_ =
        ({ LogData.init with
            currentOperation_ := some .FullIndexOperation } : LogData
            ).currentOperation_ ∧
      ({ LogData.init with
          currentOperation_ := some .FullIndexOperation } : LogData
          ).interruptLoading.nextOperation_ =
        ({ LogData.init with
            currentOperation_ := some .FullIndexOperation } : LogData
            ).nextOperation_ :=
  pendingSlotSupersession
    { LogData.init with currentOperation_ := some .FullIndexOperation }
    (.PartialIndexOperation 7) rfl

/-- C5: a change notification is classified against the stored size and
identity as `Truncated` when the size shrank or the identity changed
(submitting a full rescan), as `DataAdded` when the size grew under the
same identity (submitting a PartialScan anchored at the current indexed
size), and as `Unchanged` otherwise (submitting nothing). -/
theorem fileChangeClassification (st : LogData) (newSize newId : Nat) :
    (newSize < st.fileSize_ ∨ newId ≠ st.fileId_ →
        st.fileChangeAction newSize newId =
          (.Truncated, some .FullIndexOperation)) ∧
      (st.fileSize_ < newSize ∧ newId = st.fileId_ →
        st.fileChangeAction newSize newId =
          (.DataAdded, some (.PartialIndexOperation st.fileSize_))) ∧
      (newSize = st.fileSize_ ∧ newId = st.fileId_ →
        st.fileChangeAction newSize newId = (.Unchanged, none)) := by
  refine ⟨?_, ?_, ?_⟩
  · intro h
    simp only [LogData.fileChangeAction, classifyFileChange, if_pos h]
  · intro h
    have hnot : ¬(newSize < st.fileSize_ ∨ newId ≠ st.fileId_) := by
      push_neg
      exact ⟨by omega, h.2⟩
    simp only [LogData.fileChangeAction, classifyFileChange, if_neg hnot,
      if_pos h.1]
  · intro h
    have hnot : ¬(newSize < st.fileSize_ ∨ newId ≠ st.fileId_) := by
      push_neg
      exact ⟨by omega, h.2⟩
    have hnot2 : ¬(st.fileSize_ < newSize) := by omega
    simp only [LogData.fileChangeAction, classifyFileChange, if_neg hnot,
      if_neg hnot2]

/-- Witness for C5: a coordinator that indexed 5 bytes sees the file at
3 bytes — a shrink, classified `Truncated` with a full rescan. -/
theorem fileChangeClassification_witness :
    ({ LogData.init with fileSize_ := 5 } : LogData).fileChangeAction 3 0 =
      (.Truncated, some .FullIndexOperation) :=
  (fileChangeClassification { LogData.init with fileSize_ := 5 } 3 0).1
    (Or.inl (by decide))

/-- C8: attaching a coordinator that is already bound to a file throws
the re-attachment error, and the call leaves the coordinator exactly as
it was, still bound to its prior file. -/
theorem reattachThrowsAndKeepsBinding (st : LogData) (n : String)
    (fs : FileSys) (h : st.attached_file_.isSome = true) :
    st.attachFile n fs = Except.error ⟨⟩ ∧ st.afterAttach n fs = st := by
  obtain ⟨f, hf⟩ := Option.isSome_iff_exists.mp h
  constructor
  · simp only [LogData.attachFile, hf]
  · simp only [LogData.afterAttach, LogData.attachFile, hf]

/-- Witness for C8: re-attaching a coordinator already bound to "a". -/
theorem reattachThrowsAndKeepsBinding_witness :
    ({ LogData.init with attached_file_ := some "a" } : LogData).attachFile
        "b" (fun _ => none) = Except.error ⟨⟩ ∧
      ({ LogData.init with attached_file_ := some "a" } : LogData).afterAttach
          "b" (fun _ => none) =
        { LogData.init with attached_file_ := some "a" } :=
  reattachThrowsAndKeepsBinding
    { LogData.init with attached_file_ := some "a" } "b" (fun _ => none) rfl

/-- C9: attaching an unbound coordinator to a file that is not on disk
succeeds — it is not an error — and the coordinator is then bound to
that name and reports an empty file: zero size and zero lines. -/
theorem attachNonexistentFileEmpty (st : LogData) (n : String) (fs : FileSys)
    (h1 : st.attached_file_ = none) (h2 : fs n = none) :
    ∃ st2, st.attachFile n fs = Except.ok st2 ∧ st2.getFileSize = 0 ∧
      st2.doGetNbLine = 0 ∧ st2.attached_file_ = some n := by
  simp only [LogData.attachFile, h1, h2]
  exact ⟨_, rfl, rfl, rfl, rfl⟩

/-- Witness for C9: attaching a fresh coordinator to a name the file
system does not know. -/
theorem attachNonexistentFileEmpty_witness :
    ∃ st2, LogData.init.attachFile "nofile" (fun _ => none) =
        Except.ok st2 ∧ st2.getFileSize = 0 ∧ st2.doGetNbLine = 0 ∧
      st2.attached_file_ = some "nofile" :=
  attachNonexistentFileEmpty LogData.init "nofile" (fun _ => none) rfl rfl

/-- C10: after an attach, `getLastModifiedDate` is the null date (`none`)
exactly when the attached file is not on disk, and is the file's last
modification date otherwise. -/
theorem lastModifiedDateNullIffNotOnDisk (st : LogData) (n : String)
    (fs : FileSys) (h1 : st.attached_file_ = none) :
    (fs n = none → (st.afterAttach n fs).getLastModifiedDate = none) ∧
      ∀ fi, fs n = some fi →
        (st.afterAttach n fs).getLastModifiedDate = some fi.mtime := by
  constructor
  · intro h2
    simp only [LogData.afterAttach, LogData.attachFile,
      LogData.getLastModifiedDate, h1, h2, Option.map_none']
  · intro fi h2
    simp only [LogData.afterAttach, LogData.attachFile,
      LogData.getLastModifiedDate, h1, h2, Option.map_some']

/-- Witness for C10: a fresh coordinator attached to a file on disk with
modification date 99. -/
theorem lastModifiedDateNullIffNotOnDisk_witness :
    (LogData.init.afterAttach "log"
        (fun _ => some ⟨[97, 10], 99, 7⟩)).getLastModifiedDate = some 99 :=
  (lastModifiedDateNullIffNotOnDisk LogData.init "log"
      (fun _ => some ⟨[97, 10], 99, 7⟩) rfl).2 ⟨[97, 10], 99, 7⟩ rfl

end Glogg
